import Mathlib

/-!
Verification development for the conversation-management core of the
Guygentic repository (`src/Guygentic.py`): the bounded conversation stack
(`ConversationStack`, a `collections.deque` with `maxlen`), its branch
bookkeeping, and the message assembly routine (`MessageBuilder`).

Strings are modelled as `List Char`; Python integers as `Int` wherever the
source can produce or consume negative values (node indices, limits,
`max_size`).  A Python function that can raise is modelled with `Option`
(`none` = the exception propagates).
-/

/-- Python `str.strip()`: remove leading and trailing whitespace. -/
def pstrip (s : List Char) : List Char :=
  ((s.dropWhile Char.isWhitespace).reverse.dropWhile Char.isWhitespace).reverse

/-- Python truthiness-plus-strip test `content and content.strip()` used by the
source to decide whether a string field is present and non-blank. -/
def nonBlank (s : List Char) : Prop := s ≠ [] ∧ pstrip s ≠ []

instance (s : List Char) : Decidable (nonBlank s) := by
  unfold nonBlank; infer_instance

/-- Python indexing `l[i]` on a list/deque: negative indices count from the
end; out-of-range indexing raises `IndexError` (modelled as `none`). -/
def pyIndex {α : Type} (l : List α) (i : Int) : Option α :=
  let j : Int := if i < 0 then i + l.length else i
  if 0 ≤ j ∧ j < (l.length : Int) then l.get? j.toNat else none

/-- Python slice `l[s:]` for an arbitrary integer start `s`. -/
def pySliceFrom {α : Type} (l : List α) (s : Int) : List α :=
  if s < 0 then l.drop ((l.length : Int) + s).toNat else l.drop s.toNat

/-- `collections.deque(maxlen=m).append(x)`: append on the right, discarding
the leftmost element when the deque is already at capacity `m`. -/
def dequeAppend {α : Type} (m : Nat) (d : List α) (x : α) : List α :=
  (d ++ [x]).drop ((d ++ [x]).length - m)

/-- `ConversationNode` from `src/Guygentic.py` (lines 22-29).  The
`timestamp` field (wall-clock `datetime.now()`) carries no information any
claim depends on and is omitted from the model. -/
structure ConversationNode where
  system_prompt : List Char
  user_prompt : List Char
  ai_response : List Char
  branch_id : Nat
  parent_index : Option Int
deriving DecidableEq

/-- The keyword arguments of one `ConversationStack.push` call. -/
structure PushArgs where
  system_prompt : List Char
  user_prompt : List Char
  ai_response : List Char
  branch_id : Option Nat
deriving DecidableEq

/-- `ConversationStack` state: the bounded deque, the branch dictionary
`{branch_id: [node_indices]}` (modelled as a partial map), and the
`current_branch` counter. -/
structure ConversationStack where
  maxlen : Nat
  stack : List ConversationNode
  branches : Nat → Option (List Int)
  current_branch : Nat

/-- A fresh stack with the given capacity: `deque(maxlen=n)`, empty branch
dictionary, `current_branch = 0`. -/
def mkStack (n : Nat) : ConversationStack :=
  { maxlen := n, stack := [], branches := fun _ => none, current_branch := 0 }

/-- `ConversationStack.__init__(max_size)`:  `deque(maxlen=max_size)` raises
`ValueError` (modelled as `none`) for a negative `max_size` and accepts any
non-negative one. -/
def ConversationStack.init (max_size : Int) : Option ConversationStack :=
  if max_size < 0 then none else some (mkStack max_size.toNat)

/-- The node built by `push` from its arguments when `current_branch = cb`
(the `branch_id=None` default resolves to `cb`). -/
def nodeOfArg (cb : Nat) (a : PushArgs) : ConversationNode :=
  { system_prompt := a.system_prompt, user_prompt := a.user_prompt,
    ai_response := a.ai_response, branch_id := a.branch_id.getD cb,
    parent_index := none }

/-- `ConversationStack.push` (lines 37-50): append the node to the deque,
record `len(self.stack) - 1` in the branch dictionary, and return it. -/
def ConversationStack.push (s : ConversationStack) (a : PushArgs) :
    ConversationStack × Int :=
  let bid := a.branch_id.getD s.current_branch
  let node := nodeOfArg s.current_branch a
  let newStack := dequeAppend s.maxlen s.stack node
  let idx : Int := (newStack.length : Int) - 1
  let prev := (s.branches bid).getD []
  ({ s with stack := newStack,
            branches := fun b => if b = bid then some (prev ++ [idx]) else s.branches b },
   idx)

/-- `ConversationStack.get_recent_conversation` (lines 52-54):
`list(self.stack)[-limit:]`. -/
def ConversationStack.get_recent_conversation (s : ConversationStack)
    (limit : Int) : List ConversationNode :=
  pySliceFrom s.stack (-limit)

/-- The list comprehension `[self.stack[i] for i in indices]` evaluated left
to right; an `IndexError` anywhere aborts the whole comprehension (`none`). -/
def resolveAll (stack : List ConversationNode) : List Int → Option (List ConversationNode)
  | [] => some []
  | i :: rest =>
    match pyIndex stack i, resolveAll stack rest with
    | some n, some ns => some (n :: ns)
    | _, _ => none

/-- `ConversationStack.get_branch_conversation` (lines 56-62): take the last
`limit` recorded indices of the branch, keep those with `i < len(self.stack)`
(no lower bound!), and index the deque with each. -/
def ConversationStack.get_branch_conversation (s : ConversationStack)
    (branch_id : Nat) (limit : Int) : Option (List ConversationNode) :=
  match s.branches branch_id with
  | none => some []
  | some idxs =>
    let indices := pySliceFrom idxs (-limit)
    resolveAll s.stack (indices.filter (fun i => i < (s.stack.length : Int)))

/-- Result of `ConversationStack.create_branch`: Python returns `None`
(`notFound`), raises `IndexError` (`indexError`), or returns the new node's
index. -/
inductive CreateBranchResult where
  | notFound
  | indexError
  | ok (idx : Int)
deriving DecidableEq

/-- `ConversationStack.create_branch` (lines 64-82).  Note the source checks
only `from_index >= len(self.stack)` before indexing, so negative arguments
fall through to Python negative indexing (and `IndexError` below `-len`),
and `current_branch` is incremented before the parent lookup. -/
def ConversationStack.create_branch (s : ConversationStack) (from_index : Int)
    (new_system_prompt new_user_prompt : Option (List Char)) :
    ConversationStack × CreateBranchResult :=
  if from_index ≥ (s.stack.length : Int) then (s, CreateBranchResult.notFound)
  else
    let s1 := { s with current_branch := s.current_branch + 1 }
    match pyIndex s.stack from_index with
    | none => (s1, CreateBranchResult.indexError)
    | some parent_node =>
      let system_prompt := new_system_prompt.getD parent_node.system_prompt
      let user_prompt := new_user_prompt.getD parent_node.user_prompt
      let new_node : ConversationNode :=
        { system_prompt := system_prompt, user_prompt := user_prompt,
          ai_response := [], branch_id := s1.current_branch,
          parent_index := some from_index }
      let newStack := dequeAppend s.maxlen s.stack new_node
      let idx : Int := (newStack.length : Int) - 1
      ({ s1 with stack := newStack,
                 branches := fun b => if b = s1.current_branch then some [idx]
                                      else s1.branches b },
       CreateBranchResult.ok idx)

/-- `ConversationStack.get_stack` (lines 84-86): `list(self.stack)`. -/
def ConversationStack.get_stack (s : ConversationStack) : List ConversationNode :=
  s.stack

/-- `ConversationStack.get_item` (lines 88-92): bounds-checked positional
lookup, `None` when out of range. -/
def ConversationStack.get_item (s : ConversationStack) (index : Int) :
    Option ConversationNode :=
  if 0 ≤ index ∧ index < (s.stack.length : Int) then s.stack.get? index.toNat
  else none

/-- Iterate `push` over a list of argument tuples, keeping the state. -/
def foldPushes : ConversationStack → List PushArgs → ConversationStack
  | s, [] => s
  | s, a :: rest => foldPushes (s.push a).1 rest

/-- Iterate `push`, collecting the returned indices in call order. -/
def pushOutputs : ConversationStack → List PushArgs → List Int
  | _, [] => []
  | s, a :: rest => (s.push a).2 :: pushOutputs (s.push a).1 rest

/-- One role-tagged message `{"role": ..., "content": ...}`. -/
structure Message where
  role : String
  content : List Char
deriving DecidableEq

/-- `MessageBuilder.add_line` (lines 100-104): append
`{"role": role, "content": content.strip()}` only when
`content and content.strip()` is truthy. -/
def MessageBuilder.add_line (msg : List Message) (role : String)
    (content : List Char) : List Message :=
  if nonBlank content then msg ++ [{ role := role, content := pstrip content }]
  else msg

/-- `MessageBuilder.add_system` (lines 106-108). -/
def MessageBuilder.add_system (msg : List Message) (content : List Char) : List Message :=
  MessageBuilder.add_line msg "system" content

/-- `MessageBuilder.add_user` (lines 110-112). -/
def MessageBuilder.add_user (msg : List Message) (content : List Char) : List Message :=
  MessageBuilder.add_line msg "user" content

/-- `MessageBuilder.add_assistant` (lines 114-116). -/
def MessageBuilder.add_assistant (msg : List Message) (content : List Char) : List Message :=
  MessageBuilder.add_line msg "assistant" content

/-- The loop body of `MessageBuilder.build_from_conversation` (lines 121-127):
for one node, append a system, then a user, then an assistant message, each
guarded by the source's `node.field and node.field.strip()` test. -/
def buildNodeStep (msg : List Message) (node : ConversationNode) : List Message :=
  let m1 := if nonBlank node.system_prompt
            then MessageBuilder.add_system msg node.system_prompt else msg
  let m2 := if nonBlank node.user_prompt
            then MessageBuilder.add_user m1 node.user_prompt else m1
  if nonBlank node.ai_response
  then MessageBuilder.add_assistant m2 node.ai_response else m2

/-- `MessageBuilder.build_from_conversation` (lines 118-127): clear, then run
the loop body over the nodes in order. -/
def build_from_conversation (conversation_nodes : List ConversationNode) : List Message :=
  conversation_nodes.foldl buildNodeStep []

/-! ## General list lemmas -/

/-- The last `n` elements of `l` (all of `l` when `n ≥ l.length`). -/
def takeLast {α : Type} (n : Nat) (l : List α) : List α :=
  l.drop (l.length - n)

theorem takeLast_of_le {α : Type} {n : Nat} {l : List α} (h : l.length ≤ n) :
    takeLast n l = l := by
  unfold takeLast
  have : l.length - n = 0 := by omega
  simp [this]

theorem takeLast_length {α : Type} (n : Nat) (l : List α) :
    (takeLast n l).length = min n l.length := by
  unfold takeLast
  simp [List.length_drop]
  omega

theorem takeLast_append_takeLast {α : Type} (n : Nat) (a b : List α) :
    takeLast n (takeLast n a ++ b) = takeLast n (a ++ b) := by
  by_cases h : a.length ≤ n
  · rw [takeLast_of_le h]
  · unfold takeLast
    have hk : a.length - n ≤ a.length := by omega
    have hlen : (a.drop (a.length - n)).length = n := by
      rw [List.length_drop]; omega
    have h1 : (a.drop (a.length - n) ++ b).length - n = b.length := by
      rw [List.length_append, hlen]; omega
    rw [h1, ← List.drop_append_of_le_length hk, List.drop_drop]
    congr 1
    rw [List.length_append]
    omega

theorem takeLast_map {α β : Type} (f : α → β) (n : Nat) (l : List α) :
    takeLast n (l.map f) = (takeLast n l).map f := by
  unfold takeLast
  rw [List.length_map, List.map_drop]

theorem dequeAppend_of_lt {α : Type} {m : Nat} {d : List α} (x : α)
    (h : d.length < m) : dequeAppend m d x = d ++ [x] := by
  unfold dequeAppend
  have h1 : (d ++ [x]).length - m = 0 := by simp; omega
  rw [h1, List.drop_zero]

theorem dequeAppend_eq_takeLast {α : Type} (m : Nat) (d : List α) (x : α) :
    dequeAppend m d x = takeLast m (d ++ [x]) := rfl

theorem dequeAppend_of_full {α : Type} {m : Nat} {d : List α} (x : α)
    (hm : 1 ≤ m) (h : d.length = m) : dequeAppend m d x = d.tail ++ [x] := by
  unfold dequeAppend
  have h1 : (d ++ [x]).length - m = 1 := by simp [List.length_append]; omega
  rw [h1, List.drop_append_of_le_length (by omega), List.drop_one]

theorem dequeAppend_getLast? {α : Type} {m : Nat} (d : List α) (x : α)
    (hm : 1 ≤ m) : (dequeAppend m d x).getLast? = some x := by
  unfold dequeAppend
  have hk : (d ++ [x]).length - m ≤ d.length := by simp [List.length_append]; omega
  rw [List.drop_append_of_le_length hk, List.getLast?_concat]

/-! ## Unfolding lemmas for `push` and `foldPushes` -/

theorem push_fst_maxlen (s : ConversationStack) (a : PushArgs) :
    (s.push a).1.maxlen = s.maxlen := rfl

theorem push_fst_current_branch (s : ConversationStack) (a : PushArgs) :
    (s.push a).1.current_branch = s.current_branch := rfl

theorem push_fst_stack (s : ConversationStack) (a : PushArgs) :
    (s.push a).1.stack = dequeAppend s.maxlen s.stack (nodeOfArg s.current_branch a) := rfl

theorem push_snd (s : ConversationStack) (a : PushArgs) :
    (s.push a).2 =
      ((dequeAppend s.maxlen s.stack (nodeOfArg s.current_branch a)).length : Int) - 1 := rfl

theorem push_fst_branches (s : ConversationStack) (a : PushArgs) (b : Nat) :
    (s.push a).1.branches b =
      if b = a.branch_id.getD s.current_branch
      then some (((s.branches (a.branch_id.getD s.current_branch)).getD []) ++ [(s.push a).2])
      else s.branches b := rfl

theorem push_fst_stack_of_lt (s : ConversationStack) (a : PushArgs)
    (h : s.stack.length < s.maxlen) :
    (s.push a).1.stack = s.stack ++ [nodeOfArg s.current_branch a] := by
  rw [push_fst_stack, dequeAppend_of_lt _ h]

theorem push_snd_of_lt (s : ConversationStack) (a : PushArgs)
    (h : s.stack.length < s.maxlen) :
    (s.push a).2 = (s.stack.length : Int) := by
  rw [push_snd, dequeAppend_of_lt _ h]
  simp

theorem push_snd_of_full (s : ConversationStack) (a : PushArgs)
    (h : s.stack.length = s.maxlen) :
    (s.push a).2 = (s.maxlen : Int) - 1 := by
  rw [push_snd]
  unfold dequeAppend
  rw [List.length_drop]
  simp
  omega

theorem foldPushes_maxlen (args : List PushArgs) :
    ∀ s : ConversationStack, (foldPushes s args).maxlen = s.maxlen := by
  induction args with
  | nil => intro s; rfl
  | cons a rest ih => intro s; rw [foldPushes, ih, push_fst_maxlen]

theorem foldPushes_current_branch (args : List PushArgs) :
    ∀ s : ConversationStack, (foldPushes s args).current_branch = s.current_branch := by
  induction args with
  | nil => intro s; rfl
  | cons a rest ih => intro s; rw [foldPushes, ih, push_fst_current_branch]

/-- The deque contents after a run of pushes: always the last `maxlen` nodes
created, in creation order (this captures eviction). -/
theorem foldPushes_stack (args : List PushArgs) :
    ∀ s : ConversationStack, s.stack.length ≤ s.maxlen →
    (foldPushes s args).stack =
      takeLast s.maxlen (s.stack ++ args.map (nodeOfArg s.current_branch)) := by
  induction args with
  | nil =>
    intro s h
    rw [foldPushes, List.map_nil, List.append_nil, takeLast_of_le h]
  | cons a rest ih =>
    intro s h
    rw [foldPushes]
    have h1 := ih (s.push a).1
      (by rw [push_fst_stack, push_fst_maxlen, dequeAppend_eq_takeLast]
          rw [takeLast_length]; omega)
    rw [push_fst_maxlen, push_fst_current_branch, push_fst_stack,
        dequeAppend_eq_takeLast] at h1
    rw [h1, takeLast_append_takeLast, List.map_cons]
    congr 1
    simp

/-! ## The branch dictionary after a run of non-evicting pushes -/

/-- The deque positions that a run of pushes starting at position `start`
records for branch `b` (while `current_branch = cb` and no eviction
occurs). -/
def branchIndices (cb b : Nat) : Nat → List PushArgs → List Int
  | _, [] => []
  | start, a :: rest =>
    if a.branch_id.getD cb = b then (start : Int) :: branchIndices cb b (start + 1) rest
    else branchIndices cb b (start + 1) rest

theorem branchIndices_mem (cb b : Nat) :
    ∀ (args : List PushArgs) (start : Nat) (i : Int),
    i ∈ branchIndices cb b start args →
    (start : Int) ≤ i ∧ i < (start : Int) + args.length := by
  intro args
  induction args with
  | nil => intro start i h; simp [branchIndices] at h
  | cons a rest ih =>
    intro start i h
    simp only [branchIndices] at h
    split at h
    · rcases List.mem_cons.mp h with h1 | h1
      · subst h1; simp
      · have := ih (start + 1) i h1
        simp at this ⊢
        omega
    · have := ih (start + 1) i h
      simp at this ⊢
      omega

theorem pushOutputs_eq :
    ∀ (args : List PushArgs) (s : ConversationStack),
    s.stack.length + args.length ≤ s.maxlen →
    pushOutputs s args = (List.range' s.stack.length args.length).map Int.ofNat := by
  intro args
  induction args with
  | nil => intro s h; simp [pushOutputs]
  | cons a rest ih =>
    intro s h
    rw [pushOutputs]
    have hlt : s.stack.length < s.maxlen := by simp at h; omega
    have h1 : (s.push a).1.stack.length = s.stack.length + 1 := by
      rw [push_fst_stack_of_lt s a hlt]; simp
    have IH := ih (s.push a).1 (by rw [h1, push_fst_maxlen]; simp at h ⊢; omega)
    rw [h1] at IH
    rw [push_snd_of_lt s a hlt, IH, List.length_cons, List.range'_succ, List.map_cons]
    simp [Int.ofNat_eq_coe]

theorem foldPushes_branches (cb : Nat) :
    ∀ (args : List PushArgs) (s : ConversationStack),
    s.current_branch = cb → s.stack.length + args.length ≤ s.maxlen →
    ∀ b, (foldPushes s args).branches b =
      if branchIndices cb b s.stack.length args = [] then s.branches b
      else some ((s.branches b).getD [] ++ branchIndices cb b s.stack.length args) := by
  intro args
  induction args with
  | nil => intro s hcb hlen b; simp [foldPushes, branchIndices]
  | cons a rest ih =>
    intro s hcb hlen b
    rw [foldPushes]
    have hlt : s.stack.length < s.maxlen := by simp at hlen; omega
    have hstack1 : (s.push a).1.stack = s.stack ++ [nodeOfArg cb a] := by
      rw [← hcb]; exact push_fst_stack_of_lt s a hlt
    have hlen1 : (s.push a).1.stack.length = s.stack.length + 1 := by
      rw [hstack1]; simp
    have hcb1 : (s.push a).1.current_branch = cb := by
      rw [push_fst_current_branch, hcb]
    have hidx : (s.push a).2 = (s.stack.length : Int) := push_snd_of_lt s a hlt
    have IH := ih (s.push a).1 hcb1
      (by rw [hlen1, push_fst_maxlen]; simp at hlen ⊢; omega) b
    rw [hlen1] at IH
    rw [IH]
    have hpb := push_fst_branches s a b
    rw [hcb, hidx] at hpb
    by_cases hb : a.branch_id.getD cb = b
    · have hpb2 : (s.push a).1.branches b =
          some ((s.branches b).getD [] ++ [(s.stack.length : Int)]) := by
        rw [hpb, if_pos hb.symm, hb]
      by_cases hr : branchIndices cb b (s.stack.length + 1) rest = []
      · rw [if_pos hr, hpb2]
        simp only [branchIndices, if_pos hb, hr]
        simp
      · rw [if_neg hr, hpb2]
        simp only [branchIndices, if_pos hb]
        rw [if_neg (by simp)]
        simp [List.append_assoc]
    · have hpb2 : (s.push a).1.branches b = s.branches b := by
        rw [hpb, if_neg (fun h => hb h.symm)]
      rw [hpb2]
      simp only [branchIndices, if_neg hb]

/-! ## Resolving recorded branch positions against the deque -/

/-- Placeholder node used only to express `Option.getD` on in-bounds lookups. -/
def dfltNode : ConversationNode :=
  { system_prompt := [], user_prompt := [], ai_response := [],
    branch_id := 0, parent_index := none }

/-- The push calls of `args` that target branch `b` when `current_branch = cb`. -/
def branchFilter (cb b : Nat) (args : List PushArgs) : List PushArgs :=
  args.filter (fun a => a.branch_id.getD cb = b)

theorem pyIndex_of_nonneg {α : Type} (l : List α) (i : Int)
    (h0 : 0 ≤ i) (h1 : i < (l.length : Int)) : pyIndex l i = l.get? i.toNat := by
  have hi : ¬ i < 0 := by omega
  simp only [pyIndex, if_neg hi]
  rw [if_pos ⟨h0, h1⟩]

theorem pySliceFrom_neg {α : Type} (l : List α) (n : Int) (h : 0 < n) :
    pySliceFrom l (-n) = takeLast n.toNat l := by
  unfold pySliceFrom takeLast
  rw [if_pos (by omega)]
  congr 1
  omega

theorem pySliceFrom_zero {α : Type} (l : List α) : pySliceFrom l 0 = l := by
  unfold pySliceFrom
  simp

theorem resolveAll_of_forall (stack : List ConversationNode)
    (h : Int → ConversationNode) :
    ∀ l : List Int, (∀ i ∈ l, pyIndex stack i = some (h i)) →
    resolveAll stack l = some (l.map h) := by
  intro l
  induction l with
  | nil => intro _; rfl
  | cons i rest ih =>
    intro hall
    simp only [resolveAll, hall i (List.mem_cons_self i rest),
      ih (fun j hj => hall j (List.mem_cons_of_mem i hj)), List.map_cons]

theorem branchIndices_map_resolve (cb b : Nat) (stack : List ConversationNode) :
    ∀ (args : List PushArgs) (start : Nat),
    (∀ j, j < args.length → stack.get? (start + j) = (args.get? j).map (nodeOfArg cb)) →
    (branchIndices cb b start args).map (fun i => (stack.get? i.toNat).getD dfltNode)
      = (branchFilter cb b args).map (nodeOfArg cb) := by
  intro args
  induction args with
  | nil => intro start _; simp [branchIndices, branchFilter]
  | cons a rest ih =>
    intro start h
    have hshift : ∀ j, j < rest.length →
        stack.get? (start + 1 + j) = (rest.get? j).map (nodeOfArg cb) := by
      intro j hj
      have h2 := h (j + 1) (by simp; omega)
      rw [show start + (j + 1) = start + 1 + j by omega] at h2
      simpa using h2
    have hhead : stack.get? start = some (nodeOfArg cb a) := by
      have h2 := h 0 (by simp)
      simpa using h2
    by_cases hb : a.branch_id.getD cb = b
    · simp only [branchIndices, if_pos hb, List.map_cons, Int.toNat_ofNat, hhead]
      rw [ih (start + 1) hshift]
      simp [branchFilter, List.filter_cons, hb]
    · simp only [branchIndices, if_neg hb]
      rw [ih (start + 1) hshift]
      simp [branchFilter, List.filter_cons, hb]

/-! ## A direct per-node description of the assembler -/

/-- Specification-side description of what one turn contributes (spec section
4.3): a system, then a user, then an assistant message, each only when the
corresponding field is present and non-blank, with stripped content. -/
def emitNode (node : ConversationNode) : List Message :=
  (if nonBlank node.system_prompt
   then [{ role := "system", content := pstrip node.system_prompt }] else [])
  ++ (if nonBlank node.user_prompt
      then [{ role := "user", content := pstrip node.user_prompt }] else [])
  ++ (if nonBlank node.ai_response
      then [{ role := "assistant", content := pstrip node.ai_response }] else [])

/-- Specification-side assembler: concatenate the per-node emissions in input
order. -/
def assembleSpec : List ConversationNode → List Message
  | [] => []
  | n :: rest => emitNode n ++ assembleSpec rest

theorem buildNodeStep_eq (msg : List Message) (node : ConversationNode) :
    buildNodeStep msg node = msg ++ emitNode node := by
  simp only [buildNodeStep, MessageBuilder.add_system, MessageBuilder.add_user,
    MessageBuilder.add_assistant, MessageBuilder.add_line, emitNode]
  by_cases h1 : nonBlank node.system_prompt <;>
    by_cases h2 : nonBlank node.user_prompt <;>
      by_cases h3 : nonBlank node.ai_response <;>
        simp [h1, h2, h3, List.append_assoc]

theorem build_foldl_eq (nodes : List ConversationNode) :
    ∀ acc : List Message, nodes.foldl buildNodeStep acc = acc ++ assembleSpec nodes := by
  induction nodes with
  | nil => intro acc; simp [assembleSpec]
  | cons n rest ih =>
    intro acc
    rw [List.foldl_cons, buildNodeStep_eq, ih, assembleSpec, List.append_assoc]

theorem build_eq_assembleSpec (nodes : List ConversationNode) :
    build_from_conversation nodes = assembleSpec nodes := by
  unfold build_from_conversation
  rw [build_foldl_eq]
  simp

theorem mem_emitNode (m : Message) (node : ConversationNode) (h : m ∈ emitNode node) :
    m.content ≠ [] ∧
    (m.content = pstrip node.system_prompt ∨ m.content = pstrip node.user_prompt ∨
     m.content = pstrip node.ai_response) := by
  unfold emitNode at h
  rcases List.mem_append.mp h with h1 | h1
  · rcases List.mem_append.mp h1 with h2 | h2
    · split at h2
      · next hc =>
          rcases List.mem_singleton.mp h2 with rfl
          exact ⟨hc.2, Or.inl rfl⟩
      · simp at h2
    · split at h2
      · next hc =>
          rcases List.mem_singleton.mp h2 with rfl
          exact ⟨hc.2, Or.inr (Or.inl rfl)⟩
      · simp at h2
  · split at h1
    · next hc =>
        rcases List.mem_singleton.mp h1 with rfl
        exact ⟨hc.2, Or.inr (Or.inr rfl)⟩
    · simp at h1

theorem mem_assembleSpec (m : Message) :
    ∀ nodes : List ConversationNode, m ∈ assembleSpec nodes →
    ∃ node, node ∈ nodes ∧ m.content ≠ [] ∧
      (m.content = pstrip node.system_prompt ∨ m.content = pstrip node.user_prompt ∨
       m.content = pstrip node.ai_response) := by
  intro nodes
  induction nodes with
  | nil => intro h; simp [assembleSpec] at h
  | cons n rest ih =>
    intro h
    rw [assembleSpec] at h
    rcases List.mem_append.mp h with h1 | h1
    · obtain ⟨hne, hf⟩ := mem_emitNode m n h1
      exact ⟨n, List.mem_cons_self n rest, hne, hf⟩
    · obtain ⟨node, hmem, hne, hf⟩ := ih h1
      exact ⟨node, List.mem_cons_of_mem n hmem, hne, hf⟩

/-! ## Concrete sample data for counterexamples and witnesses -/

/-- Sample push: user prompt "a" on the default branch. -/
def argA : PushArgs :=
  { system_prompt := [], user_prompt := ['a'], ai_response := [], branch_id := none }

/-- Sample push: user prompt "b" on the default branch. -/
def argB : PushArgs :=
  { system_prompt := [], user_prompt := ['b'], ai_response := [], branch_id := none }

/-- Sample push: user prompt "c" on the default branch. -/
def argC : PushArgs :=
  { system_prompt := [], user_prompt := ['c'], ai_response := [], branch_id := none }

theorem mkStack_maxlen (n : Nat) : (mkStack n).maxlen = n := rfl

theorem mkStack_stack (n : Nat) : (mkStack n).stack = [] := rfl

theorem mkStack_current_branch (n : Nat) : (mkStack n).current_branch = 0 := rfl

theorem mkStack_branches (n b : Nat) : (mkStack n).branches b = none := rfl

/-! ## Claim C9 -/

/-- Claim C9 counterexample: `ConversationStack(0)` does not signal an
invalid argument; `deque(maxlen=0)` is accepted and a store is silently
produced, although `max_size = 0` is non-positive. -/
theorem c9_nonpositive_capacity_cex : ConversationStack.init 0 = some (mkStack 0) := rfl

/-- Claim C9 amended: construction signals an error (a `ValueError` from
`deque`, modelled as `none`) exactly for negative `max_size`; `max_size = 0`
is accepted silently and yields a store that never retains any turn. -/
theorem c9_nonpositive_capacity_amended :
    (∀ n : Int, ConversationStack.init n = none ↔ n < 0)
    ∧ ∀ a : PushArgs, ((mkStack 0).push a).1.stack = [] := by
  constructor
  · intro n
    unfold ConversationStack.init
    by_cases h : n < 0
    · simp [h]
    · simp [h]
  · intro a
    rw [push_fst_stack]
    unfold dequeAppend
    simp [mkStack]

/-! ## Claim C4 -/

/-- Claim C4 (confirmed): for capacity `N ≥ 1` and `k > N` pushes, exactly
the last `N` pushed turns are resident via `get_stack`, in creation order
(first conjunct), and each push against a full store evicts exactly the
single oldest resident turn, independent of branch (second conjunct). -/
theorem c4_capacity_invariant :
    (∀ (N : Nat) (args : List PushArgs), 1 ≤ N → N < args.length →
      (foldPushes (mkStack N) args).get_stack
        = (args.map (nodeOfArg 0)).drop (args.length - N))
    ∧ ∀ (s : ConversationStack) (a : PushArgs), 1 ≤ s.maxlen →
        s.stack.length = s.maxlen →
        (s.push a).1.stack = s.stack.tail ++ [nodeOfArg s.current_branch a] := by
  constructor
  · intro N args _ _
    have h := foldPushes_stack args (mkStack N) (by rw [mkStack_stack]; simp)
    rw [mkStack_maxlen, mkStack_stack, mkStack_current_branch, List.nil_append] at h
    unfold ConversationStack.get_stack
    rw [h]
    unfold takeLast
    rw [List.length_map]
  · intro s a hm hfull
    rw [push_fst_stack, dequeAppend_of_full _ hm hfull]

/-- Claim C4 witness: capacity 2, three pushes; the resident turns are the
last two, and the third push evicted exactly the oldest one. -/
theorem c4_capacity_invariant_witness :
    ((foldPushes (mkStack 2) [argA, argB, argC]).get_stack
       = ([argA, argB, argC].map (nodeOfArg 0)).drop ([argA, argB, argC].length - 2))
    ∧ ((foldPushes (mkStack 2) [argA, argB]).push argC).1.stack
       = (foldPushes (mkStack 2) [argA, argB]).stack.tail
         ++ [nodeOfArg (foldPushes (mkStack 2) [argA, argB]).current_branch argC] :=
  ⟨c4_capacity_invariant.1 2 [argA, argB, argC] (by decide) (by decide),
   c4_capacity_invariant.2 (foldPushes (mkStack 2) [argA, argB]) argC (by decide) (by decide)⟩

/-! ## Claim C3 -/

/-- Claim C3 counterexample: on a store of capacity 1, two consecutive
`push` calls both return id 0 — the second id is not strictly greater than
the first, and the id 0 is reused. -/
theorem c3_id_monotonic_cex :
    ((mkStack 1).push argA).2 = 0
    ∧ (((mkStack 1).push argA).1.push argB).2 = 0
    ∧ ¬ ((mkStack 1).push argA).2 < (((mkStack 1).push argA).1.push argB).2 := by
  decide

/-- Claim C3 amended: `push` returns the deque position `len(stack) - 1`,
so the returned ids are `0, 1, 2, ...` — strictly increasing and never
reused — only while the number of pushes stays within capacity; once the
store is full every further push returns `capacity - 1`, reusing it. -/
theorem c3_id_monotonic_amended :
    (∀ (N : Nat) (args : List PushArgs), args.length ≤ N →
      pushOutputs (mkStack N) args = (List.range args.length).map Int.ofNat)
    ∧ ∀ (s : ConversationStack) (a : PushArgs), s.stack.length = s.maxlen →
        (s.push a).2 = (s.maxlen : Int) - 1 := by
  constructor
  · intro N args h
    have h2 := pushOutputs_eq args (mkStack N) (by rw [mkStack_stack, mkStack_maxlen]; simp; omega)
    rw [mkStack_stack] at h2
    simp only [List.length_nil] at h2
    rw [h2, List.range_eq_range']
  · exact fun s a hf => push_snd_of_full s a hf

/-- Claim C3 witness: within capacity the ids are `[0, 1]`; a push on a full
capacity-1 store returns `0 = 1 - 1` again. -/
theorem c3_id_monotonic_witness :
    pushOutputs (mkStack 2) [argA, argB] = (List.range [argA, argB].length).map Int.ofNat
    ∧ ((foldPushes (mkStack 1) [argA]).push argB).2
        = ((foldPushes (mkStack 1) [argA]).maxlen : Int) - 1 :=
  ⟨c3_id_monotonic_amended.1 2 [argA, argB] (by decide),
   c3_id_monotonic_amended.2 (foldPushes (mkStack 1) [argA]) argB (by decide)⟩

/-! ## Claim C1 -/

/-- Claim C1 counterexample: capacity 1; `push` returns id 0 for turn A, a
second push evicts A, and `get_item 0` now returns turn B — the content of a
different turn, not A's content and not `None`. -/
theorem c1_id_stability_cex :
    ((mkStack 1).push argA).2 = 0
    ∧ (((mkStack 1).push argA).1.push argB).1.get_item 0 = some (nodeOfArg 0 argB)
    ∧ nodeOfArg 0 argB ≠ nodeOfArg 0 argA := by
  decide

/-- Claim C1 amended: the returned "ids" are deque positions, so the claim
holds only while no eviction has occurred: as long as the total number of
pushes stays within capacity, the (i+1)-st push returns id `i` and
`get_item i` returns exactly that push's turn; after an eviction the
positions shift and `get_item` can return a later turn's content. -/
theorem c1_id_stability_amended (N : Nat) (args : List PushArgs) (i : Nat)
    (hlen : args.length ≤ N) (hi : i < args.length) :
    pushOutputs (mkStack N) args = (List.range args.length).map Int.ofNat
    ∧ (foldPushes (mkStack N) args).get_item (i : Int)
        = some (nodeOfArg 0 (args.get ⟨i, hi⟩)) := by
  constructor
  · have h2 := pushOutputs_eq args (mkStack N) (by rw [mkStack_stack, mkStack_maxlen]; simp; omega)
    rw [mkStack_stack] at h2
    simp only [List.length_nil] at h2
    rw [h2, List.range_eq_range']
  · have hstack : (foldPushes (mkStack N) args).stack = args.map (nodeOfArg 0) := by
      have h := foldPushes_stack args (mkStack N) (by rw [mkStack_stack]; simp)
      rw [mkStack_maxlen, mkStack_stack, mkStack_current_branch, List.nil_append] at h
      rw [h]
      exact takeLast_of_le (by rw [List.length_map]; exact hlen)
    unfold ConversationStack.get_item
    rw [hstack]
    rw [if_pos ⟨by exact_mod_cast Nat.zero_le i,
                by rw [List.length_map]; exact_mod_cast hi⟩]
    rw [Int.toNat_ofNat, List.get?_map, List.get?_eq_get hi]
    rfl

/-- Claim C1 witness: capacity 2, two pushes, id 1 still resolves to the
second push's turn. -/
theorem c1_id_stability_witness :
    pushOutputs (mkStack 2) [argA, argB] = (List.range [argA, argB].length).map Int.ofNat
    ∧ (foldPushes (mkStack 2) [argA, argB]).get_item ((1 : Nat) : Int)
        = some (nodeOfArg 0 ([argA, argB].get ⟨1, by decide⟩)) :=
  c1_id_stability_amended 2 [argA, argB] 1 (by decide) (by decide)

/-! ## Claim C8 -/

/-- Claim C8 counterexample: with one resident turn, `recent(0)` returns
that turn — the Python slice `[-0:]` is the whole list — although
`min(0, live count) = 0` demands the empty sequence. -/
theorem c8_recent_cex :
    (((mkStack 50).push argA).1).get_recent_conversation 0 = [nodeOfArg 0 argA]
    ∧ ((((mkStack 50).push argA).1).get_recent_conversation 0).length
        ≠ min (Int.toNat 0) ((((mkStack 50).push argA).1).stack.length) := by
  decide

/-- Claim C8 amended: for every positive `n`, `recent(n)` returns exactly
the most recent `min(n, live count)` resident turns, most-recent-last (the
length-`min n live` suffix of the creation-ordered deque); for `n = 0` it
returns all resident turns instead of none (a Python `[-0:]` slice
artifact). -/
theorem c8_recent_amended (s : ConversationStack) (n : Int) (hn : 0 < n) :
    s.get_recent_conversation n = takeLast n.toNat s.stack
    ∧ (s.get_recent_conversation n).length = min n.toNat s.stack.length
    ∧ s.get_recent_conversation 0 = s.stack := by
  have h1 : s.get_recent_conversation n = takeLast n.toNat s.stack := by
    unfold ConversationStack.get_recent_conversation
    exact pySliceFrom_neg s.stack n hn
  refine ⟨h1, ?_, ?_⟩
  · rw [h1, takeLast_length]
  · unfold ConversationStack.get_recent_conversation
    rw [neg_zero, pySliceFrom_zero]

/-- Claim C8 witness: two resident turns, `recent(1)` is the one-element
suffix. -/
theorem c8_recent_witness :
    (foldPushes (mkStack 3) [argA, argB]).get_recent_conversation 1
      = takeLast (Int.toNat 1) (foldPushes (mkStack 3) [argA, argB]).stack
    ∧ ((foldPushes (mkStack 3) [argA, argB]).get_recent_conversation 1).length
      = min (Int.toNat 1) (foldPushes (mkStack 3) [argA, argB]).stack.length
    ∧ (foldPushes (mkStack 3) [argA, argB]).get_recent_conversation 0
      = (foldPushes (mkStack 3) [argA, argB]).stack :=
  c8_recent_amended (foldPushes (mkStack 3) [argA, argB]) 1 (by decide)

/-! ## Case analysis of `create_branch` -/

theorem pyIndex_some {α : Type} (l : List α) (i : Int)
    (h0 : -(l.length : Int) ≤ i) (h1 : i < (l.length : Int)) :
    ∃ v, pyIndex l i = some v := by
  simp only [pyIndex]
  by_cases hi : i < 0
  · rw [if_pos hi, if_pos (by constructor <;> omega)]
    have hlt : (i + l.length).toNat < l.length := by omega
    exact ⟨l.get ⟨(i + l.length).toNat, hlt⟩, List.get?_eq_get hlt⟩
  · rw [if_neg hi, if_pos (by constructor <;> omega)]
    have hlt : i.toNat < l.length := by omega
    exact ⟨l.get ⟨i.toNat, hlt⟩, List.get?_eq_get hlt⟩

theorem pyIndex_none {α : Type} (l : List α) (i : Int)
    (h : i < -(l.length : Int)) : pyIndex l i = none := by
  have hlen0 : (0 : Int) ≤ l.length := by exact_mod_cast Nat.zero_le _
  have hi : i < 0 := by omega
  simp only [pyIndex, if_pos hi]
  rw [if_neg (by rintro ⟨ha, hb⟩; omega)]

/-- The node `create_branch` constructs (with the default `None` prompt
overrides) from the parent node it looked up. -/
def newNd (s : ConversationStack) (fi : Int) (pnode : ConversationNode) : ConversationNode :=
  { system_prompt := pnode.system_prompt, user_prompt := pnode.user_prompt,
    ai_response := [], branch_id := s.current_branch + 1,
    parent_index := some fi }

theorem create_branch_notFound_case (s : ConversationStack) (fi : Int)
    (h : (s.stack.length : Int) ≤ fi) :
    s.create_branch fi none none = (s, CreateBranchResult.notFound) := by
  unfold ConversationStack.create_branch
  rw [if_pos h]

theorem create_branch_indexError_case (s : ConversationStack) (fi : Int)
    (h : fi < -(s.stack.length : Int)) :
    s.create_branch fi none none
      = ({ s with current_branch := s.current_branch + 1 }, CreateBranchResult.indexError) := by
  have hlen0 : (0 : Int) ≤ s.stack.length := by exact_mod_cast Nat.zero_le _
  unfold ConversationStack.create_branch
  rw [if_neg (by omega), pyIndex_none s.stack fi h]

theorem create_branch_ok_case (s : ConversationStack) (fi : Int)
    (h0 : -(s.stack.length : Int) ≤ fi) (h1 : fi < (s.stack.length : Int)) :
    ∃ pnode, pyIndex s.stack fi = some pnode ∧
    s.create_branch fi none none =
      ({ s with current_branch := s.current_branch + 1,
                stack := dequeAppend s.maxlen s.stack (newNd s fi pnode),
                branches := fun b =>
                  if b = s.current_branch + 1
                  then some [((dequeAppend s.maxlen s.stack (newNd s fi pnode)).length : Int) - 1]
                  else s.branches b },
       CreateBranchResult.ok
         (((dequeAppend s.maxlen s.stack (newNd s fi pnode)).length : Int) - 1)) := by
  obtain ⟨p, hp⟩ := pyIndex_some s.stack fi h0 h1
  refine ⟨p, hp, ?_⟩
  unfold ConversationStack.create_branch
  rw [if_neg (by omega), hp]
  rfl

/-! ## Claim C5 -/

/-- Claim C5 counterexample: on an empty store, `create_branch(-1)` raises
`IndexError` (the source checks only `from_index >= len`, then indexes), so
`create_branch` can raise for an integer argument; and on a store holding
one turn (whose only issued id is 0), `create_branch(-1)` succeeds via
Python negative indexing although `-1` is not an id of any resident turn —
it neither returns `None` in that case nor only on non-resident ids. -/
theorem c5_create_branch_cex :
    ((mkStack 50).create_branch (-1) none none).2 = CreateBranchResult.indexError
    ∧ (((mkStack 50).push argA).1.create_branch (-1) none none).2
        = CreateBranchResult.ok 1 := by
  decide

/-- Claim C5 amended: `create_branch(from_index)` returns `None` iff
`from_index ≥` the number of resident turns; it raises `IndexError` iff
`from_index < -len(stack)`; for `-len ≤ from_index < len` it succeeds
(negative arguments resolve Python-style from the end), allocating the
strictly increasing branch id `current_branch + 1`, registering exactly the
new node's index under that branch, and recording `from_index` as the new
node's fork parent. -/
theorem c5_create_branch_amended (s : ConversationStack) (fi : Int) :
    ((s.create_branch fi none none).2 = CreateBranchResult.notFound
       ↔ (s.stack.length : Int) ≤ fi)
    ∧ ((s.create_branch fi none none).2 = CreateBranchResult.indexError
       ↔ fi < -(s.stack.length : Int))
    ∧ (s.stack.length ≤ s.maxlen → -(s.stack.length : Int) ≤ fi →
       fi < (s.stack.length : Int) →
        (s.create_branch fi none none).1.current_branch = s.current_branch + 1
        ∧ (s.create_branch fi none none).2
            = CreateBranchResult.ok
                (((s.create_branch fi none none).1.stack.length : Int) - 1)
        ∧ (s.create_branch fi none none).1.branches (s.current_branch + 1)
            = some [((s.create_branch fi none none).1.stack.length : Int) - 1]
        ∧ ∃ nd, (s.create_branch fi none none).1.stack.getLast? = some nd
            ∧ nd.parent_index = some fi ∧ nd.branch_id = s.current_branch + 1) := by
  have hlen0 : (0 : Int) ≤ s.stack.length := by exact_mod_cast Nat.zero_le _
  by_cases hnf : (s.stack.length : Int) ≤ fi
  · rw [create_branch_notFound_case s fi hnf]
    refine ⟨by simp [hnf], by simp; omega, ?_⟩
    intro _ _ h1
    omega
  · by_cases hie : fi < -(s.stack.length : Int)
    · rw [create_branch_indexError_case s fi hie]
      refine ⟨by simp; omega, by simp [hie], ?_⟩
      intro _ h0 _
      omega
    · obtain ⟨p, hp, heq⟩ := create_branch_ok_case s fi (by omega) (by omega)
      rw [heq]
      refine ⟨by simp; omega, by simp; omega, ?_⟩
      intro hm _ h1
      have hm1 : 1 ≤ s.maxlen := by omega
      refine ⟨rfl, rfl, by simp, ?_⟩
      exact ⟨newNd s fi p, dequeAppend_getLast? s.stack (newNd s fi p) hm1, rfl, rfl⟩

/-- Claim C5 witness: a store with one resident turn; `create_branch 0`
succeeds with the described shape. -/
theorem c5_create_branch_witness :
    (((mkStack 50).push argA).1.create_branch 0 none none).1.current_branch
      = ((mkStack 50).push argA).1.current_branch + 1
    ∧ (((mkStack 50).push argA).1.create_branch 0 none none).2
        = CreateBranchResult.ok
            (((((mkStack 50).push argA).1.create_branch 0 none none).1.stack.length : Int) - 1)
    ∧ (((mkStack 50).push argA).1.create_branch 0 none none).1.branches
        (((mkStack 50).push argA).1.current_branch + 1)
        = some [((((mkStack 50).push argA).1.create_branch 0 none none).1.stack.length : Int) - 1] :=
  ⟨((c5_create_branch_amended ((mkStack 50).push argA).1 0).2.2
      (by decide) (by decide) (by decide)).1,
   ((c5_create_branch_amended ((mkStack 50).push argA).1 0).2.2
      (by decide) (by decide) (by decide)).2.1,
   ((c5_create_branch_amended ((mkStack 50).push argA).1 0).2.2
      (by decide) (by decide) (by decide)).2.2.1⟩

/-! ## Claim C6 -/

/-- Claim C6 counterexample: capacity 1 with one resident turn; forking from
node 0 evicts the parent during the fork's own append, so the new branch's
first turn lands at index 0 with `parent_index = 0` — the fork parent equals
the new branch's own sole id (not strictly earlier), and resolving it yields
the new branch's own first turn: a cycle of length one. -/
theorem c6_fork_parent_cex :
    ((((mkStack 1).push argA).1.create_branch 0 none none).2 = CreateBranchResult.ok 0)
    ∧ ((((mkStack 1).push argA).1.create_branch 0 none none).1.branches 1 = some [0])
    ∧ (Option.map ConversationNode.parent_index
         ((((mkStack 1).push argA).1.create_branch 0 none none).1.get_item 0)
       = some (some 0))
    ∧ (Option.map ConversationNode.branch_id
         ((((mkStack 1).push argA).1.create_branch 0 none none).1.get_item 0)
       = some 1) := by
  decide

/-- Claim C6 amended: the fork parent is strictly smaller than every id of
the new branch only when the fork's own append does not evict, i.e. when the
store is below capacity at fork time (and the parent index is non-negative);
in that case the new branch's sole recorded id is `len(stack)` and
`fork_parent = from_index < len(stack)`.  When the store is full at fork
time, the appended fork turn reuses an existing position and the fork parent
can equal the new branch's own id, so a cycle is possible. -/
theorem c6_fork_parent_amended (s : ConversationStack) (fi : Int)
    (hcap : s.stack.length < s.maxlen) (h0 : 0 ≤ fi)
    (h1 : fi < (s.stack.length : Int)) :
    (s.create_branch fi none none).2 = CreateBranchResult.ok (s.stack.length : Int)
    ∧ (s.create_branch fi none none).1.branches (s.current_branch + 1)
        = some [(s.stack.length : Int)]
    ∧ (∀ l, (s.create_branch fi none none).1.branches (s.current_branch + 1) = some l →
        ∀ i ∈ l, fi < i)
    ∧ Option.map ConversationNode.parent_index
        ((s.create_branch fi none none).1.get_item (s.stack.length : Int))
      = some (some fi) := by
  obtain ⟨p, hp, heq⟩ := create_branch_ok_case s fi (by omega) h1
  have hstk : (s.create_branch fi none none).1.stack = s.stack ++ [newNd s fi p] := by
    rw [heq]; exact dequeAppend_of_lt _ hcap
  have hidx2 : ((s.create_branch fi none none).1.stack.length : Int) - 1
      = (s.stack.length : Int) := by
    rw [hstk]; simp
  have hsnd : (s.create_branch fi none none).2
      = CreateBranchResult.ok
          (((s.create_branch fi none none).1.stack.length : Int) - 1) := by
    rw [heq]
  have hbr : ∀ b, (s.create_branch fi none none).1.branches b
      = if b = s.current_branch + 1
        then some [((dequeAppend s.maxlen s.stack (newNd s fi p)).length : Int) - 1]
        else s.branches b := by
    intro b; rw [heq]
  refine ⟨by rw [hsnd, hidx2], ?_, ?_, ?_⟩
  · rw [hbr (s.current_branch + 1), if_pos rfl, dequeAppend_of_lt _ hcap]
    simp
  · intro l hl i hi
    rw [hbr (s.current_branch + 1), if_pos rfl] at hl
    have hl2 : l = [((dequeAppend s.maxlen s.stack (newNd s fi p)).length : Int) - 1] :=
      (Option.some.inj hl).symm
    subst hl2
    rw [List.mem_singleton] at hi
    subst hi
    rw [dequeAppend_of_lt _ hcap]
    simpa using h1
  · unfold ConversationStack.get_item
    rw [hstk]
    rw [if_pos ⟨by exact_mod_cast Nat.zero_le _, by simp⟩]
    rw [Int.toNat_natCast, List.get?_concat_length]
    rfl

/-- Claim C6 witness: capacity 5 with one resident turn; the fork's append
does not evict, the new branch's sole id is 1, and the fork parent 0 is
strictly smaller than it. -/
theorem c6_fork_parent_witness :
    ((((mkStack 5).push argA).1.create_branch 0 none none).2
       = CreateBranchResult.ok ((((mkStack 5).push argA).1.stack.length : Int)))
    ∧ ((((mkStack 5).push argA).1.create_branch 0 none none).1.branches
         (((mkStack 5).push argA).1.current_branch + 1)
       = some [(((mkStack 5).push argA).1.stack.length : Int)])
    ∧ (Option.map ConversationNode.parent_index
         ((((mkStack 5).push argA).1.create_branch 0 none none).1.get_item
           (((mkStack 5).push argA).1.stack.length : Int))
       = some (some 0)) :=
  ⟨(c6_fork_parent_amended ((mkStack 5).push argA).1 0
      (by decide) (by decide) (by decide)).1,
   (c6_fork_parent_amended ((mkStack 5).push argA).1 0
      (by decide) (by decide) (by decide)).2.1,
   (c6_fork_parent_amended ((mkStack 5).push argA).1 0
      (by decide) (by decide) (by decide)).2.2.2⟩

/-! ## Claim C2 -/

theorem foldPushes_mkStack_stack (N : Nat) (args : List PushArgs)
    (hlen : args.length ≤ N) :
    (foldPushes (mkStack N) args).stack = args.map (nodeOfArg 0) := by
  have h := foldPushes_stack args (mkStack N) (by rw [mkStack_stack]; simp)
  rw [mkStack_maxlen, mkStack_stack, mkStack_current_branch, List.nil_append] at h
  rw [h]
  exact takeLast_of_le (by rw [List.length_map]; exact hlen)

/-- Claim C2 counterexample: capacity 2, three pushes A, B, C on branch 0.
The first push was issued id 0 for turn A, but after A's eviction the branch
lookup resolves entry 0 to turn B (a different turn than the id was issued
for, instead of being silently dropped), and turn C appears twice. -/
theorem c2_branch_lookup_cex :
    pushOutputs (mkStack 2) [argA, argB, argC] = [0, 1, 1]
    ∧ (foldPushes (mkStack 2) [argA, argB, argC]).get_branch_conversation 0 10
        = some [nodeOfArg 0 argB, nodeOfArg 0 argC, nodeOfArg 0 argC]
    ∧ nodeOfArg 0 argB ≠ nodeOfArg 0 argA := by
  decide

/-- Claim C2 amended: the recorded entries are deque positions, so the claim
holds only while no eviction has occurred: if the total number of pushes
stays within capacity, then for every branch and every positive limit the
branch lookup returns exactly the turns of that branch's last `limit`
appends, in append order, each entry resolving to the turn its id was
issued for.  After an eviction, entries alias to later turns instead of
being dropped. -/
theorem c2_branch_lookup_amended (N : Nat) (args : List PushArgs) (b : Nat)
    (limit : Int) (hlen : args.length ≤ N) (hlim : 0 < limit) :
    (foldPushes (mkStack N) args).get_branch_conversation b limit
      = some (takeLast limit.toNat ((branchFilter 0 b args).map (nodeOfArg 0))) := by
  have hstack := foldPushes_mkStack_stack N args hlen
  have hbr := foldPushes_branches 0 args (mkStack N) (mkStack_current_branch N)
    (by rw [mkStack_stack, mkStack_maxlen]; simp; omega) b
  rw [mkStack_stack] at hbr
  simp only [List.length_nil, mkStack_branches, Option.getD_none, List.nil_append] at hbr
  have hmemb : ∀ i ∈ branchIndices 0 b 0 args,
      (0 : Int) ≤ i ∧ i < (args.length : Int) := by
    intro i hi
    have h2 := branchIndices_mem 0 b args 0 i hi
    simpa using h2
  have hmap : (branchIndices 0 b 0 args).map
        (fun i => (((foldPushes (mkStack N) args).stack).get? i.toNat).getD dfltNode)
      = (branchFilter 0 b args).map (nodeOfArg 0) := by
    apply branchIndices_map_resolve
    intro j hj
    rw [Nat.zero_add, hstack, List.get?_map]
  by_cases hempty : branchIndices 0 b 0 args = []
  · rw [if_pos hempty] at hbr
    have hf : (branchFilter 0 b args).map (nodeOfArg 0) = [] := by
      rw [← hmap, hempty]
      rfl
    simp only [ConversationStack.get_branch_conversation, hbr, hf]
    unfold takeLast
    simp
  · rw [if_neg hempty] at hbr
    simp only [ConversationStack.get_branch_conversation, hbr]
    rw [pySliceFrom_neg _ _ hlim]
    have hsub : ∀ i ∈ takeLast limit.toNat (branchIndices 0 b 0 args),
        (0 : Int) ≤ i ∧ i < (args.length : Int) := by
      intro i hi
      have hi2 : i ∈ (branchIndices 0 b 0 args).drop
          ((branchIndices 0 b 0 args).length - limit.toNat) := hi
      exact hmemb i (List.drop_subset _ _ hi2)
    have hfilter : (takeLast limit.toNat (branchIndices 0 b 0 args)).filter
          (fun i => decide (i < (((foldPushes (mkStack N) args).stack.length : Nat) : Int)))
        = takeLast limit.toNat (branchIndices 0 b 0 args) := by
      apply List.filter_eq_self.mpr
      intro i hi
      rw [hstack, List.length_map]
      exact decide_eq_true (hsub i hi).2
    rw [hfilter]
    rw [resolveAll_of_forall (foldPushes (mkStack N) args).stack
      (fun i => (((foldPushes (mkStack N) args).stack).get? i.toNat).getD dfltNode)
      (takeLast limit.toNat (branchIndices 0 b 0 args)) ?hall]
    case hall =>
      intro i hi
      obtain ⟨h0, h1⟩ := hsub i hi
      have h1b : i < (((foldPushes (mkStack N) args).stack.length : Nat) : Int) := by
        rw [hstack, List.length_map]
        exact h1
      rw [pyIndex_of_nonneg _ i h0 h1b]
      have hlt : i.toNat < (foldPushes (mkStack N) args).stack.length := by omega
      simp only [List.get?_eq_get hlt, Option.getD_some]
    congr 1
    rw [← takeLast_map]
    rw [hmap]

/-- Claim C2 witness: capacity 3, two pushes on branch 0, limit 1: the
lookup returns the branch's last turn. -/
theorem c2_branch_lookup_witness :
    (foldPushes (mkStack 3) [argA, argB]).get_branch_conversation 0 1
      = some (takeLast (Int.toNat 1) ((branchFilter 0 0 [argA, argB]).map (nodeOfArg 0))) :=
  c2_branch_lookup_amended 3 [argA, argB] 0 1 (by decide) (by decide)

/-! ## Claim C7 -/

/-- Claim C7 (confirmed): for every input turn sequence the assembler emits,
per turn in input order, a system message only if `system_prompt` is
non-blank, then a user message only if `user_prompt` is non-blank, then an
assistant message only if `ai_response` is non-blank; blank or
whitespace-only fields never produce a message.  This is exactly the
per-node description `assembleSpec` / `emitNode`. -/
theorem c7_assembler_order (nodes : List ConversationNode) :
    build_from_conversation nodes = assembleSpec nodes :=
  build_eq_assembleSpec nodes

/-! ## Claim C10 -/

/-- Claim C10 (confirmed): every message emitted by the assembler has
non-empty content equal to some originating node field with leading and
trailing whitespace stripped (`content == field.strip()`). -/
theorem c10_stripped_content (nodes : List ConversationNode) (m : Message)
    (h : m ∈ build_from_conversation nodes) :
    m.content ≠ []
    ∧ ∃ node, node ∈ nodes ∧
      (m.content = pstrip node.system_prompt ∨ m.content = pstrip node.user_prompt ∨
       m.content = pstrip node.ai_response) := by
  rw [build_eq_assembleSpec] at h
  obtain ⟨node, hmem, hne, hf⟩ := mem_assembleSpec m nodes h
  exact ⟨hne, node, hmem, hf⟩

/-- A sample turn whose system prompt is `" hi "` and whose other fields are
blank. -/
def nodeC10 : ConversationNode :=
  { system_prompt := [' ', 'h', 'i', ' '], user_prompt := [], ai_response := [],
    branch_id := 0, parent_index := none }

/-- Claim C10 witness: the single message built from `nodeC10` has content
"hi", the stripped system prompt. -/
theorem c10_stripped_content_witness :
    ({ role := "system", content := ['h', 'i'] } : Message).content ≠ []
    ∧ ∃ node, node ∈ [nodeC10] ∧
      (({ role := "system", content := ['h', 'i'] } : Message).content
          = pstrip node.system_prompt
       ∨ ({ role := "system", content := ['h', 'i'] } : Message).content
          = pstrip node.user_prompt
       ∨ ({ role := "system", content := ['h', 'i'] } : Message).content
          = pstrip node.ai_response) :=
  c10_stripped_content [nodeC10] { role := "system", content := ['h', 'i'] } (by decide)
